import Mathlib

/-!
Verification of the AxiomOS conversational-agent memory core.

This file gives a shallow embedding, in Lean 4, of the memory/command
orchestration core of the AxiomOS repository (`src/agent.py`,
`src/redis_manager.py`, `src/services/session_service.py`,
`src/services/memory_service.py`) and proves or refutes the frozen
claims about it.

Modelling conventions:
 - Python strings are Lean `String`s; `str.lower`, `str.strip`,
   substring tests (`pat in s`) and `str.startswith` are re-implemented
   structurally over `List Char` so that every proof can be checked by
   kernel reduction.
 - The durable store (PostgreSQL `long_term_memory` table) is a
   `List MemRecord`; SQLAlchemy `query(...).delete()` is a filter plus
   a count, `query(...).first()` is `List.find?`, row insertion is
   list append.  Store unavailability (an exception out of
   `db_manager.get_session()`) is an `Except` parameter.
 - Python `user_id` is a `Nat`, with `0` playing the role of a falsy
   value (`None` or `0`), matching the `if not state.user_id` guards.
 - The Groq completion service is an oracle parameter of type
   `Except String String`: `.error e` models the service raising an
   exception with text `e`, `.ok c` models a completion whose message
   content is `c`.
 - `json.dumps` / `json.loads` belong to the Python standard library
   (outside this repository); where their behaviour matters they are
   abstract encode/decode parameters, constrained only by the
   hypotheses a claim itself grants ("allowing for JSON encode/decode").
-/

namespace AxiomOS

/-- The single-quote character, used inside the user-visible message
strings exactly where the Python source has a quote. -/
def sq : String := (Char.ofNat 39).toString

/-- ASCII lower-casing of one character, as Python `str.lower` acts on
the ASCII command keywords and patterns used by the agent. -/
def charLower (c : Char) : Char :=
  if 65 ≤ c.toNat ∧ c.toNat ≤ 90 then Char.ofNat (c.toNat + 32) else c

/-- Python `s.lower()` (ASCII fragment). -/
def strLower (s : String) : String := ⟨s.data.map charLower⟩

/-- Python whitespace as stripped by `str.strip`. -/
def isWS (c : Char) : Bool :=
  c == ' ' || c == '\t' || c == '\n' || c == '\r' || c.toNat == 11 || c.toNat == 12

/-- Python `s.strip()`. -/
def strTrim (s : String) : String :=
  ⟨((s.data.dropWhile isWS).reverse.dropWhile isWS).reverse⟩

/-- List-level prefix test (structural, kernel-reducible). -/
def listPref : List Char → List Char → Bool
  | [], _ => true
  | _ :: _, [] => false
  | a :: as, b :: bs => a == b && listPref as bs

/-- List-level substring test. -/
def listSub (pat : List Char) : List Char → Bool
  | [] => pat.isEmpty
  | c :: rest => listPref pat (c :: rest) || listSub pat rest

/-- Python `pat in s` (substring containment). -/
def strContains (s pat : String) : Bool := listSub pat.data s.data

/-- Python `s.startswith(pat)`. -/
def strStarts (s pat : String) : Bool := listPref pat.data s.data

/-- Python `s.split(":", 1)[1]`: everything after the first colon
(the empty string when no colon occurs). -/
def afterFirstColon (s : String) : String :=
  match s.splitOn ":" with
  | [] => ""
  | [_] => ""
  | _ :: rest => String.intercalate ":" rest

/-- One row of the `long_term_memory` table: `user_id`, `key`, `value`
(the `value` column is `Text`, so always a string). -/
structure MemRecord where
  user : Nat
  key : String
  value : String
deriving Repr, DecidableEq

/-- Python dict assignment `m[k] = v`: any previous binding of `k` is
replaced.  (Insertion order is irrelevant to every lookup we model.) -/
def dictInsert (m : List (String × String)) (k v : String) : List (String × String) :=
  m.filter (fun p => !(p.1 == k)) ++ [(k, v)]

/-- Python dict lookup `m.get(k)`. -/
def dictGet (m : List (String × String)) (k : String) : Option String :=
  (m.find? (fun p => p.1 == k)).map (fun p => p.2)

/-! ## The AI-mediated deletion path (`AxiomOSAgent._process_memory_deletion`) -/

/-- Outcome of a deletion request: the durable store afterwards, the
`delete_result` message put into the context (if any), and whether the
completion service was consulted. -/
structure DelOutcome where
  db : List MemRecord
  deleteResult : Option String
  llmInvoked : Bool
deriving Repr, DecidableEq

/-- The `memories` dict built at the top of `_process_memory_deletion`:
the user's records, skipping rows with a falsy (empty) key or value. -/
def buildMemories (u : Nat) (db : List MemRecord) : List (String × String) :=
  db.foldl
    (fun m r =>
      if r.user == u && !(r.key == "") && !(r.value == "") then dictInsert m r.key r.value
      else m)
    []

/-- The hard-coded explicit delete-all phrasings checked before the
completion service is consulted. -/
def deleteAllPatterns : List String :=
  ["delete all memories", "clear all memories", "remove everything",
   "delete all", "clear memories", "remove all memories",
   "delete everything", "clear all", "remove all"]

/-- `AxiomOSAgent._execute_delete_all`: delete every record of the user,
report the count removed. -/
def executeDeleteAll (u : Nat) (db : List MemRecord) (invoked : Bool) : DelOutcome :=
  { db := db.filter (fun r => !(r.user == u))
    deleteResult := some ("Successfully deleted " ++
      toString (db.countP (fun r => r.user == u)) ++ " memories.")
    llmInvoked := invoked }

/-- `AxiomOSAgent._execute_delete_specific`: delete the one named key if
it is among the summarised memories. -/
def executeDeleteSpecific (u : Nat) (memoryKey : String)
    (memories : List (String × String)) (db : List MemRecord) : DelOutcome :=
  if (memories.find? (fun p => p.1 == memoryKey)).isNone then
    { db := db
      deleteResult := some ("Memory " ++ sq ++ memoryKey ++ sq ++ " not found.")
      llmInvoked := true }
  else
    let n := db.countP (fun r => r.user == u && r.key == memoryKey)
    let db' := db.filter (fun r => !(r.user == u && r.key == memoryKey))
    if n > 0 then
      { db := db'
        deleteResult := some ("Successfully deleted memory " ++ sq ++ memoryKey ++ sq ++ ".")
        llmInvoked := true }
    else
      { db := db'
        deleteResult := some ("Failed to delete memory " ++ sq ++ memoryKey ++ sq ++ ".")
        llmInvoked := true }

/-- `AxiomOSAgent._process_memory_deletion`.  `uid` is `state.user_id`
(0 for unauthenticated), `msgs` is `state.messages`, `db` the durable
store, `llm` the completion-service oracle.  The summarisation of the
memories into the prompt text only feeds the oracle and is not
observable, so it is not reproduced. -/
def processMemoryDeletion (uid : Nat) (msgs : List String)
    (db : List MemRecord) (llm : Except String String) : DelOutcome :=
  match msgs.getLast? with
  | none => { db := db, deleteResult := none, llmInvoked := false }
  | some lastMessage =>
    if uid == 0 then { db := db, deleteResult := none, llmInvoked := false }
    else
      let memories := buildMemories uid db
      if memories.isEmpty then
        { db := db, deleteResult := some "No memories found to delete.", llmInvoked := false }
      else
        let lowered := strLower lastMessage
        if deleteAllPatterns.any (fun p => strContains lowered p) then
          executeDeleteAll uid db false
        else
          match llm with
          | Except.error e =>
            { db := db
              deleteResult := some ("Error processing deletion request: " ++ e)
              llmInvoked := true }
          | Except.ok content =>
            let decision := strTrim content
            if decision == "DELETE_ALL" || strStarts decision "DELETE_ALL:" then
              executeDeleteAll uid db true
            else if strStarts decision "DELETE_SPECIFIC:" then
              let memoryKey := strTrim (afterFirstColon decision)
              executeDeleteSpecific uid memoryKey memories db
            else if strStarts decision "DELETE_NONE:" then
              let reason := strTrim (afterFirstColon decision)
              { db := db
                deleteResult := some ("I cannot delete the memory(ies) because: " ++ reason)
                llmInvoked := true }
            else
              { db := db
                deleteResult := some ("I" ++ sq ++
                  "m not sure how to handle this deletion request. Please be more specific.")
                llmInvoked := true }

/-- The three classification forms the specification recognises:
exactly `DELETE_ALL`, or `DELETE_SPECIFIC:<key>`, or
`DELETE_NONE:<reason>`. -/
def claimRecognized (d : String) : Bool :=
  d == "DELETE_ALL" || strStarts d "DELETE_SPECIFIC:" || strStarts d "DELETE_NONE:"

/-- The classification forms the code actually accepts: additionally any
string starting with `DELETE_ALL:`. -/
def codeRecognized (d : String) : Bool :=
  claimRecognized d || strStarts d "DELETE_ALL:"

/-! ## Slash-command handlers (`_command_clear`, `_command_delete`) -/

/-- `AxiomOSAgent._command_clear`.  Arguments: the authenticated user id
(0 for unauthenticated), `context.get("command_arg", "")`, the durable
store.  Returns the store afterwards, the `command_result` message, and
the final value of the `needs_clear_confirmation` context flag. -/
def commandClear (uid : Nat) (arg : Option String) (db : List MemRecord) :
    List MemRecord × String × Bool :=
  let prompt := "You are requesting to clear ALL memories. Please confirm with " ++
    sq ++ "/clear confirm" ++ sq ++ " to proceed."
  if strLower (arg.getD "") == "confirm" then
    if uid == 0 then
      (db, "Cannot clear memories: user not authenticated.", false)
    else
      let n := db.countP (fun r => r.user == uid)
      (db.filter (fun r => !(r.user == uid)),
        "All memories cleared (" ++ toString n ++ " deleted).", false)
  else
    (db, prompt, true)

/-- `AxiomOSAgent._command_delete`.  Returns the store afterwards, the
`command_result` message, and whether the durable store was accessed at
all. -/
def commandDelete (uid : Nat) (arg : Option String) (db : List MemRecord) :
    List MemRecord × String × Bool :=
  if arg.getD "" == "" then
    (db, "Please specify which memory to delete. Usage: /delete <memory_key>.", false)
  else if uid == 0 then
    (db, "Cannot delete memory: user not authenticated.", false)
  else
    let key := strTrim (arg.getD "")
    let n := db.countP (fun r => r.user == uid && r.key == key)
    let db' := db.filter (fun r => !(r.user == uid && r.key == key))
    if n != 0 then
      (db', "Memory " ++ sq ++ key ++ sq ++ " deleted.", true)
    else
      (db, "Memory " ++ sq ++ key ++ sq ++ " not found.", true)

/-! ## Session authentication

Two implementations live in the repository: the services-layer
`SessionService.authenticate_or_create_session` (which catches a store
failure and falls back to the default user id 1) and the agent
pipeline's `AxiomOSAgent._authenticate` (which has no handler, so a
store failure propagates and fails the request). -/

/-- One row of the `sessions` table. -/
structure SessRecord where
  user : Nat
  sid : String
  expires : Nat
deriving Repr, DecidableEq

/-- `SessionService.authenticate_or_create_session`.  `sid0` is the
caller-supplied session id (falsy when `none` or empty), `newSid` the
freshly generated UUID used in that case, `now`/`timeout` the clock and
configured session timeout, `store` the durable store (or its failure).
Returns the bound session id, the bound user id and the store
afterwards. -/
def authenticateOrCreateSession (sid0 : Option String) (newSid : String)
    (now timeout : Nat) (store : Except String (List SessRecord)) :
    String × Nat × Except String (List SessRecord) :=
  let sid := if (sid0.getD "") == "" then newSid else sid0.getD ""
  match store with
  | Except.error _ => (sid, 1, store)
  | Except.ok rows =>
    match rows.find? (fun r => r.sid == sid && decide (now < r.expires)) with
    | some r => (sid, r.user, Except.ok rows)
    | none => (sid, 1, Except.ok (rows ++ [⟨1, sid, now + timeout⟩]))

/-- `AxiomOSAgent._authenticate`: the same lookup-or-create logic, but a
store failure is not caught, so it aborts the request
(`Except.error`). -/
def agentAuthenticate (sid0 : Option String) (newSid : String)
    (now timeout : Nat) (store : Except String (List SessRecord)) :
    Except String (String × Nat × List SessRecord) :=
  let sid := if (sid0.getD "") == "" then newSid else sid0.getD ""
  match store with
  | Except.error e => Except.error e
  | Except.ok rows =>
    match rows.find? (fun r => r.sid == sid && decide (now < r.expires)) with
    | some r => Except.ok (sid, r.user, rows)
    | none => Except.ok (sid, 1, rows ++ [⟨1, sid, now + timeout⟩])

/-! ## Memory loading and saving (`MemoryService`, `AxiomOSAgent._load_memory`)

Decoded Python values are `String ⊕ J`: either a `str`, or a non-string
JSON-decodable value drawn from an abstract type `J`.  `json.loads` is
an abstract `loads : String → Option (String ⊕ J)` (`none` models
`json.JSONDecodeError`); `json.dumps` on non-string values is an
abstract `dumps : J → String`. -/

/-- Best-effort decoding of one stored value, as in
`MemoryService.load_long_term_memory`: `json.loads` on success, the raw
string on `JSONDecodeError`. -/
def decodeValue {J : Type} (loads : String → Option (String ⊕ J)) (s : String) :
    String ⊕ J :=
  match loads s with
  | some v => v
  | none => Sum.inl s

/-- Python dict assignment for decoded memories. -/
def dictInsertPV {J : Type} (m : List (String × (String ⊕ J))) (k : String)
    (v : String ⊕ J) : List (String × (String ⊕ J)) :=
  m.filter (fun p => !(p.1 == k)) ++ [(k, v)]

/-- Lookup in a decoded-memory dict. -/
def dictGetPV {J : Type} (m : List (String × (String ⊕ J))) (k : String) :
    Option (String ⊕ J) :=
  (m.find? (fun p => p.1 == k)).map (fun p => p.2)

/-- `MemoryService.load_long_term_memory`: empty for a falsy user id or
an unavailable store, otherwise the user's records with each value
JSON-decoded best-effort. -/
def loadLongTermMemory {J : Type} (loads : String → Option (String ⊕ J))
    (uid : Nat) (store : Except String (List MemRecord)) :
    List (String × (String ⊕ J)) :=
  if uid == 0 then []
  else
    match store with
    | Except.error _ => []
    | Except.ok db =>
      (db.filter (fun r => r.user == uid)).foldl
        (fun m r => dictInsertPV m r.key (decodeValue loads r.value)) []

/-- `AxiomOSAgent._load_memory`, long-term part: no exception handler
(a store failure aborts the pipeline) and no JSON decoding (raw strings
are kept); rows with a falsy key or value are skipped. -/
def agentLoadMemory (uid : Nat) (longTerm : List (String × String))
    (store : Except String (List MemRecord)) :
    Except String (List (String × String)) :=
  if uid == 0 then Except.ok longTerm
  else
    match store with
    | Except.error e => Except.error e
    | Except.ok db =>
      Except.ok ((db.filter (fun r => r.user == uid)).foldl
        (fun m r => if !(r.key == "") && !(r.value == "") then dictInsert m r.key r.value else m)
        longTerm)

/-- Replace the value of the first record matching `(u, k)`, as the
SQLAlchemy `query(...).first()` then attribute-assignment does. -/
def updateFirstValue (u : Nat) (k nv : String) : List MemRecord → List MemRecord
  | [] => []
  | r :: rest =>
    if r.user == u && r.key == k then { r with value := nv } :: rest
    else r :: updateFirstValue u k nv rest

/-- `MemoryService.save_long_term_memory`: refuse falsy user or key,
serialise a non-string value with `json.dumps`, then query-then-upsert.
Returns the success flag and the store afterwards. -/
def saveLongTermMemory {J : Type} (dumps : J → String) (uid : Nat) (k : String)
    (v : String ⊕ J) (store : Except String (List MemRecord)) :
    Bool × Except String (List MemRecord) :=
  if uid == 0 || k == "" then (false, store)
  else
    match store with
    | Except.error e => (false, Except.error e)
    | Except.ok db =>
      let jv := match v with | Sum.inl s => s | Sum.inr j => dumps j
      if db.any (fun r => r.user == uid && r.key == k) then
        (true, Except.ok (updateFirstValue uid k jv db))
      else
        (true, Except.ok (db ++ [⟨uid, k, jv⟩]))

/-! ## The session store (`RedisManager`)

The manager's mutable state is the client handle, the `fallback_mode`
flag and the in-process `memory_storage` map; the backing Redis
service's own key space is carried alongside (`ext`) so that
connected-mode operations have somewhere to act.  Outcomes of
connection attempts come from an environment `env : Nat → Bool`
indexed by the attempt counter. -/

/-- Generic key/value assignment. -/
def kvInsert {D : Type} (m : List (String × D)) (k : String) (v : D) :
    List (String × D) :=
  m.filter (fun p => !(p.1 == k)) ++ [(k, v)]

/-- Generic key/value lookup. -/
def kvGet {D : Type} (m : List (String × D)) (k : String) : Option D :=
  (m.find? (fun p => p.1 == k)).map (fun p => p.2)

/-- Generic key/value removal (`dict.pop(k, None)`). -/
def kvRemove {D : Type} (m : List (String × D)) (k : String) :
    List (String × D) :=
  m.filter (fun p => !(p.1 == k))

/-- The mutable state of a `RedisManager` plus the backing service. -/
structure RedisState (D : Type) where
  connected : Bool := false
  fallback : Bool := false
  attempts : Nat := 0
  mem : List (String × D) := []
  ext : List (String × D) := []
deriving Repr, DecidableEq

/-- The state set up by `RedisManager.__init__`: no client, fallback
mode off, empty in-process storage (no connection is made during
construction). -/
def initRedis (D : Type) : RedisState D := {}

/-- The session-store operations exercised through the manager. -/
inductive ROp (D : Type) where
  | setData (sid : String) (d : D) (ttl : Nat)
  | getData (sid : String)
  | delData (sid : String)
  | ping
deriving Repr, DecidableEq

/-- Result of one session-store operation. -/
inductive RRes (D : Type) where
  | unit
  | got (v : Option D)
  | pong (b : Bool)
deriving Repr, DecidableEq

/-- `f"session:{session_id}"`. -/
def sessionKey (sid : String) : String := "session:" ++ sid

/-- `RedisManager._ensure_connected`: attempt a connection only when
there is no client and fallback mode is off; a failed attempt turns
fallback mode on.  Returns the new state and whether an attempt was
made. -/
def ensureConnected {D : Type} (env : Nat → Bool) (st : RedisState D) :
    RedisState D × Bool :=
  if st.connected || st.fallback then (st, false)
  else if env st.attempts then
    ({ st with connected := true, attempts := st.attempts + 1 }, true)
  else
    ({ st with fallback := true, attempts := st.attempts + 1 }, true)

/-- One operation against the manager
(`set_session_data` / `get_session_data` / `delete_session` / `ping`).
Returns the state, the result and whether a connection attempt was
made.  In fallback mode `set_session_data` ignores the TTL. -/
def stepOp {D : Type} (env : Nat → Bool) (st : RedisState D) :
    ROp D → RedisState D × RRes D × Bool
  | ROp.setData sid d _ttl =>
    if st.fallback then
      ({ st with mem := kvInsert st.mem (sessionKey sid) d }, RRes.unit, false)
    else
      let (st', att) := ensureConnected env st
      if st'.connected then
        ({ st' with ext := kvInsert st'.ext (sessionKey sid) d }, RRes.unit, att)
      else (st', RRes.unit, att)
  | ROp.getData sid =>
    if st.fallback then (st, RRes.got (kvGet st.mem (sessionKey sid)), false)
    else
      let (st', att) := ensureConnected env st
      if st'.connected then (st', RRes.got (kvGet st'.ext (sessionKey sid)), att)
      else (st', RRes.got none, att)
  | ROp.delData sid =>
    if st.fallback then
      ({ st with mem := kvRemove st.mem (sessionKey sid) }, RRes.unit, false)
    else
      let (st', att) := ensureConnected env st
      if st'.connected then
        ({ st' with ext := kvRemove st'.ext (sessionKey sid) }, RRes.unit, att)
      else (st', RRes.unit, att)
  | ROp.ping =>
    if st.fallback then (st, RRes.pong false, false)
    else
      let (st', att) := ensureConnected env st
      (st', RRes.pong st'.connected, att)

/-- Run a sequence of operations; also counts connection attempts. -/
def runOps {D : Type} (env : Nat → Bool) (st : RedisState D) :
    List (ROp D) → RedisState D × List (RRes D) × Nat
  | [] => (st, [], 0)
  | op :: ops =>
    let (st1, r, a) := stepOp env st op
    let (st2, rs, n) := runOps env st1 ops
    (st2, r :: rs, (if a then 1 else 0) + n)

/-- Specification-level semantics of the pure in-process map: what the
claim says fallback mode must do (TTL ignored, `ping` false). -/
def specStep {D : Type} (m : List (String × D)) :
    ROp D → List (String × D) × RRes D
  | ROp.setData sid d _ => (kvInsert m (sessionKey sid) d, RRes.unit)
  | ROp.getData sid => (m, RRes.got (kvGet m (sessionKey sid)))
  | ROp.delData sid => (kvRemove m (sessionKey sid), RRes.unit)
  | ROp.ping => (m, RRes.pong false)

/-- Run of the specification-level map semantics. -/
def specRun {D : Type} (m : List (String × D)) :
    List (ROp D) → List (String × D) × List (RRes D)
  | [] => (m, [])
  | op :: ops =>
    let (m1, r) := specStep m op
    let (m2, rs) := specRun m1 ops
    (m2, r :: rs)

/-! ## The agent pipeline state (`AxiomOSAgent`) -/

/-- The per-request context mapping, with the keys the pipeline reads
and writes lifted to fields; everything else (web-search results,
feature toggles, entries merged back from the session store) lives in
`extra`.  The agent's own `_save_memory` strips all of the ephemeral
keys below before persisting the context, so a session blob read back
from the store only ever populates `extra`. -/
structure Ctx where
  command : Option String := none
  commandArg : Option String := none
  commandResult : Option String := none
  deleteResult : Option String := none
  skipLlm : Bool := false
  skipSave : Bool := false
  processingRemember : Bool := false
  processingRecall : Bool := false
  processingDelete : Bool := false
  needsClearConfirmation : Bool := false
  extra : List (String × String) := []
deriving Repr, DecidableEq

/-- The pipeline state threaded through the stages, together with the
durable store contents (`db`), which the handlers read and write. -/
structure AgState where
  userId : Nat := 0
  sessionId : String := ""
  messages : List String := []
  ctx : Ctx := {}
  longTerm : List (String × String) := []
  db : List MemRecord := []
deriving Repr, DecidableEq

/-- `AxiomOSAgent._load_memory` as invoked from `_command_save` to
refresh the state: merge the session blob back into the context and
rebuild the long-term mapping from the store (raw values, falsy keys
and values skipped). -/
def refreshFromStore (blob : List (String × String)) (st : AgState) : AgState :=
  let st1 :=
    if !(st.sessionId == "") then
      { st with ctx := { st.ctx with
          extra := blob.foldl (fun m p => dictInsert m p.1 p.2) st.ctx.extra } }
    else st
  if st1.userId == 0 then st1
  else
    let lt :=
      (st1.db.filter (fun r => r.user == st1.userId)).foldl
        (fun m r =>
          if !(r.key == "") && !(r.value == "") then dictInsert m r.key r.value else m)
        st1.longTerm
    { st1 with longTerm := lt }

/-- `AxiomOSAgent._command_save`: insert a timestamp-keyed record whose
value is the JSON encoding of the prior messages and context snapshot
(`saveVal` stands for that `json.dumps` output), then refresh. -/
def commandSaveSt (now saveVal : String) (blob : List (String × String))
    (st : AgState) : AgState :=
  if st.userId == 0 then
    { st with ctx := { st.ctx with
        commandResult := some "Cannot save memory: user not authenticated." } }
  else
    let memoryKey := "memory_" ++ now
    let st1 := { st with
      db := st.db ++ [⟨st.userId, memoryKey, saveVal⟩]
      ctx := { st.ctx with
        commandResult := some ("Memory saved as " ++ sq ++ memoryKey ++ sq ++ ".") } }
    refreshFromStore blob st1

/-- `AxiomOSAgent._command_recall`.  `preview` and `previewShort` stand
for `_format_memory_preview` with and without details; their output
feeds only the result text. -/
def commandRecallSt (preview previewShort : String → String → String)
    (st : AgState) : AgState :=
  if st.longTerm.isEmpty then
    { st with ctx := { st.ctx with
        commandResult := some "No memories available to recall." } }
  else
    let a := (st.ctx.commandArg.getD "")
    if !(a == "") then
      let key := strTrim a
      let mv := (dictGet st.longTerm key).getD ""
      if mv == "" then
        { st with ctx := { st.ctx with
            commandResult := some ("Memory " ++ sq ++ key ++ sq ++ " not found.") } }
      else
        { st with ctx := { st.ctx with commandResult := some (preview key mv) } }
    else
      let items := (st.longTerm.take 10).map (fun p => previewShort p.1 p.2)
      let items :=
        if st.longTerm.length ≥ 10 then items ++ ["... (showing first 10 memories)"]
        else items
      { st with ctx := { st.ctx with
          commandResult := some (String.intercalate "\n" items) } }

/-- `AxiomOSAgent._command_delete` at state level: also drops the key
from the in-memory long-term mapping when a row was deleted. -/
def commandDeleteSt (st : AgState) : AgState :=
  let (db', res, _) := commandDelete st.userId st.ctx.commandArg st.db
  let key := strTrim (st.ctx.commandArg.getD "")
  let deleted :=
    !((st.ctx.commandArg.getD "") == "") && st.userId != 0 &&
      st.db.countP (fun r => r.user == st.userId && r.key == key) != 0
  { st with
    db := db'
    longTerm := if deleted then kvRemove st.longTerm key else st.longTerm
    ctx := { st.ctx with commandResult := some res } }

/-- `AxiomOSAgent._command_clear` at state level: also empties the
in-memory long-term mapping when the confirmed clear ran. -/
def commandClearSt (st : AgState) : AgState :=
  let (db', res, flag) := commandClear st.userId st.ctx.commandArg st.db
  let cleared := st.userId != 0 && strLower (st.ctx.commandArg.getD "") == "confirm"
  { st with
    db := db'
    longTerm := if cleared then [] else st.longTerm
    ctx := { st.ctx with commandResult := some res, needsClearConfirmation := flag } }

/-- The static `/help` reference text (`_command_help`); emoji glyphs of
the source are elided, the textual content is kept. -/
def helpText : String :=
  "**AxiomOS Available Commands:**\n\n" ++
  "**/save** - Save current conversation to long-term memory\n  Usage: /save\n\n" ++
  "**/recall** - Retrieve saved memories from long-term memory\n" ++
  "  Usage: /recall [memory_key]\n  Examples: /recall (shows all memories)\n" ++
  "           /recall memory_20231201_143022 (shows specific memory)\n\n" ++
  "**/delete** - Delete a specific memory from long-term memory\n" ++
  "  Usage: /delete <memory_key>\n  Example: /delete memory_20231201_143022\n\n" ++
  "**/clear** - Clear all memories from long-term memory\n" ++
  "  Usage: /clear (shows confirmation)\n         /clear confirm (executes the clear operation)\n" ++
  "  This action cannot be undone!\n\n" ++
  "**/help** - Show this help message\n  Usage: /help\n\n" ++
  "**Tips:**\n- Memories are stored with timestamps as keys\n" ++
  "- Use /recall first to see available memory keys\n" ++
  "- /save preserves your conversation context for future reference\n" ++
  "- All memory operations require user authentication"

/-- `AxiomOSAgent._command_help`: no store access. -/
def commandHelpSt (st : AgState) : AgState :=
  { st with ctx := { st.ctx with commandResult := some helpText } }

/-- `AxiomOSAgent._execute_command`: dispatch on the detected command,
then unconditionally set the two skip flags and drop the command keys. -/
def executeCommand (now saveVal : String) (blob : List (String × String))
    (preview previewShort : String → String → String) (st : AgState) : AgState :=
  match st.ctx.command with
  | none => st
  | some c =>
    let st1 :=
      if c == "save" then commandSaveSt now saveVal blob st
      else if c == "recall" then commandRecallSt preview previewShort st
      else if c == "delete" then commandDeleteSt st
      else if c == "clear" then commandClearSt st
      else if c == "help" then commandHelpSt st
      else
        { st with ctx := { st.ctx with
            commandResult := some ("Unknown command " ++ sq ++ "/" ++ c ++ sq ++
              ". Available commands: /save, /recall, /delete, /clear, /help.") } }
    { st1 with ctx := { st1.ctx with
        skipLlm := true, skipSave := true, command := none, commandArg := none } }

/-- `AxiomOSAgent._save_memory`, durable part.  The session-context
write to the session store touches no long-term record and is covered
by the `RedisManager` model; here the deletion/skip guard and the
`processing_remember`-gated insert are kept.  `encVal` stands for the
`json.dumps` of the messages-plus-context payload. -/
def saveMemory (now encVal : String) (st : AgState) : AgState :=
  if st.ctx.processingDelete || st.ctx.skipSave then
    { st with ctx := { st.ctx with skipSave := false } }
  else if st.userId != 0 && st.ctx.processingRemember then
    { st with db := st.db ++ [⟨st.userId, "conversation_" ++ now, encVal⟩] }
  else st

/-- `AxiomOSAgent._respond`.  `llm` is the completion-service oracle,
`memoryInfo` the formatted recall text appended in the
`processing_recall` branch.  Returns the state and whether the
completion service was invoked.  (The web-search enrichment touches
only context extras and is omitted.) -/
def respond (llm : Except String String) (memoryInfo : String) (st : AgState) :
    AgState × Bool :=
  match st.messages.getLast? with
  | none => (st, false)
  | some lastMessage =>
    if st.ctx.skipLlm then
      let r := st.ctx.commandResult.getD "Command executed."
      ({ st with
          messages := st.messages ++ (if r == "" then [] else [r])
          ctx := { st.ctx with
            skipLlm := false, commandResult := none, needsClearConfirmation := false } },
        false)
    else
      let resp :=
        match llm with
        | Except.error e =>
          "I received your message: " ++ sq ++ lastMessage ++ sq ++ ". I" ++ sq ++
            "m AxiomOS, your personal assistant. (Note: Groq API error: " ++ e ++ ")"
        | Except.ok reply =>
          if st.ctx.processingDelete then
            st.ctx.deleteResult.getD "Memory deletion request processed."
          else if st.ctx.processingRecall then reply ++ memoryInfo
          else if st.ctx.processingRemember then
            "I" ++ sq ++ "ve saved our conversation to your long-term memory."
          else reply
      ({ st with
          messages := st.messages ++ (if resp == "" then [] else [resp])
          ctx := { st.ctx with
            processingDelete := false, processingRecall := false,
            processingRemember := false, deleteResult := none, skipSave := false } },
        true)

/-! ## Streaming (`AxiomOSAgent.run_stream`) -/

/-- One streamed chunk (`StreamChunkModel`). -/
structure StreamChunk where
  token : String
  sessionId : String
  isComplete : Bool
  finalResponse : Option String
deriving Repr, DecidableEq

/-- The sequence of chunks emitted by `run_stream`, as a function of:
the command short-circuit result (`some r` when `skip_llm_response` was
set by command execution), the `delta.content` fields of the upstream
completion chunks (`none` entries are skipped), an exception raised by
the upstream stream after those events (`streamErr`), and an exception
raised by the `_save_memory` call that follows the final chunk
(`saveErr`, still inside the generator's `try`). -/
def runStreamChunks (sid : String) (cmdResult : Option String)
    (events : List (Option String)) (streamErr saveErr : Option String) :
    List StreamChunk :=
  match cmdResult with
  | some r => [⟨r, sid, true, some r⟩]
  | none =>
    let toks := events.filterMap id
    let falseChunks := toks.map (fun t => (⟨t, sid, false, none⟩ : StreamChunk))
    match streamErr with
    | some e =>
      falseChunks ++ [⟨"Error occurred: " ++ e, sid, true, some ("Error occurred: " ++ e)⟩]
    | none =>
      let full := toks.foldl (fun a t => a ++ t) ""
      match saveErr with
      | none => falseChunks ++ [⟨"", sid, true, some full⟩]
      | some e =>
        falseChunks ++ [⟨"", sid, true, some full⟩,
          ⟨"Error occurred: " ++ e, sid, true, some ("Error occurred: " ++ e)⟩]

/-- Concatenation of the `token` fields of the `is_complete = false`
chunks of a stream. -/
def concatFalseTokens (cs : List StreamChunk) : String :=
  (cs.filter (fun c => !c.isComplete)).foldl (fun a c => a ++ c.token) ""

/-- The claimed shape of a streamed response: zero or more incomplete
chunks, then exactly one terminating chunk whose `final_response` is
the concatenation of the incomplete tokens. -/
def streamClaimCheck (cs : List StreamChunk) : Bool :=
  match cs.getLast? with
  | none => false
  | some lastC =>
    cs.dropLast.all (fun c => !c.isComplete) && lastC.isComplete &&
      (lastC.finalResponse == some (concatFalseTokens cs))

/-! ## Helper lemmas -/

/-- A Python dict assignment never yields an empty dict. -/
lemma dictInsert_ne_nil (m : List (String × String)) (k v : String) :
    dictInsert m k v ≠ [] := by
  simp [dictInsert]

/-- The `memories`-building fold preserves non-emptiness of the
accumulator. -/
lemma buildMemories_foldl_ne_nil (uid : Nat) (l : List MemRecord)
    (acc : List (String × String)) (hacc : acc ≠ []) :
    l.foldl
      (fun m r =>
        if r.user == uid && !(r.key == "") && !(r.value == "") then dictInsert m r.key r.value
        else m)
      acc ≠ [] := by
  induction l generalizing acc with
  | nil => simpa using hacc
  | cons r rest ih =>
    rw [List.foldl_cons]
    by_cases h : (r.user == uid && !(r.key == "") && !(r.value == "")) = true
    · rw [if_pos h]
      exact ih _ (dictInsert_ne_nil _ _ _)
    · rw [if_neg h]
      exact ih _ hacc

/-- A qualifying record anywhere in the list makes the fold's result
non-empty, whatever the accumulator. -/
lemma buildMemories_foldl_mem_ne_nil (uid : Nat) (r : MemRecord)
    (hq : (r.user == uid && !(r.key == "") && !(r.value == "")) = true) :
    ∀ (l : List MemRecord) (acc : List (String × String)), r ∈ l →
      l.foldl
        (fun m r =>
          if r.user == uid && !(r.key == "") && !(r.value == "") then dictInsert m r.key r.value
          else m)
        acc ≠ []
  | [], _, hr => absurd hr (List.not_mem_nil r)
  | x :: rest, acc, hr => by
    rw [List.foldl_cons]
    rcases List.mem_cons.mp hr with hx | hx
    · subst hx
      rw [if_pos hq]
      exact buildMemories_foldl_ne_nil uid rest _ (dictInsert_ne_nil _ _ _)
    · by_cases h : (x.user == uid && !(x.key == "") && !(x.value == "")) = true
      · rw [if_pos h]
        exact buildMemories_foldl_mem_ne_nil uid r hq rest _ hx
      · rw [if_neg h]
        exact buildMemories_foldl_mem_ne_nil uid r hq rest _ hx

/-- A record of the user with non-empty key and value makes the
`memories` dict of `_process_memory_deletion` non-empty. -/
lemma buildMemories_ne_nil (uid : Nat) (db : List MemRecord)
    (h : ∃ r ∈ db, r.user = uid ∧ r.key ≠ "" ∧ r.value ≠ "") :
    buildMemories uid db ≠ [] := by
  obtain ⟨r, hr, hu, hk, hv⟩ := h
  have hq : (r.user == uid && !(r.key == "") && !(r.value == "")) = true := by
    simp [hu, hk, hv]
  exact buildMemories_foldl_mem_ne_nil uid r hq db [] hr

/-! ## C1: error or unrecognised classification on the AI-mediated path -/

/-- C1, counterexample.  With one existing memory and a request that
does not hit the explicit fast path, a completion of
`"DELETE_ALL: confirmed"` — which is none of the three exact forms
`DELETE_ALL`, `DELETE_SPECIFIC:<key>`, `DELETE_NONE:<reason>` — does
not produce a refusal: it deletes the user's record. -/
theorem c1_unrecognized_classification_counterexample :
    claimRecognized (strTrim "DELETE_ALL: confirmed") = false ∧
    (processMemoryDeletion 1 ["delete the test memory"]
        [⟨1, "note", "hello"⟩] (Except.ok "DELETE_ALL: confirmed")).db = [] ∧
    (processMemoryDeletion 1 ["delete the test memory"]
        [⟨1, "note", "hello"⟩] (Except.ok "DELETE_ALL: confirmed")).deleteResult =
      some "Successfully deleted 1 memories." := by
  decide

/-- C1, amended.  On the AI-mediated deletion path (existing memories,
no explicit delete-all phrasing), if the completion service raises an
error or returns a classification outside the forms the code accepts —
exactly `DELETE_ALL`, or a string starting with `DELETE_ALL:`,
`DELETE_SPECIFIC:` or `DELETE_NONE:` — then no record is deleted and
the outcome is a refusal message. -/
theorem c1_error_or_unrecognized_refuses (uid : Nat) (msgs : List String)
    (db : List MemRecord) (llm : Except String String) (lastMsg : String)
    (hlast : msgs.getLast? = some lastMsg)
    (huid : uid ≠ 0)
    (hmem : ∃ r ∈ db, r.user = uid ∧ r.key ≠ "" ∧ r.value ≠ "")
    (hfast : deleteAllPatterns.any (fun p => strContains (strLower lastMsg) p) = false)
    (hbad : (∃ e, llm = Except.error e) ∨
            (∃ c, llm = Except.ok c ∧ codeRecognized (strTrim c) = false)) :
    (processMemoryDeletion uid msgs db llm).db = db ∧
    ((∃ e, (processMemoryDeletion uid msgs db llm).deleteResult =
        some ("Error processing deletion request: " ++ e)) ∨
      (processMemoryDeletion uid msgs db llm).deleteResult =
        some ("I" ++ sq ++
          "m not sure how to handle this deletion request. Please be more specific.")) := by
  have h0 : (uid == 0) = false := by simpa using huid
  have h1 : (buildMemories uid db).isEmpty = false := by
    have := buildMemories_ne_nil uid db hmem
    cases h : buildMemories uid db with
    | nil => exact absurd h this
    | cons a l => rfl
  rcases hbad with ⟨e, he⟩ | ⟨c, hc, hrec⟩
  · subst he
    refine ⟨?_, Or.inl ⟨e, ?_⟩⟩ <;>
      simp [processMemoryDeletion, hlast, h0, h1, hfast]
  · subst hc
    have hr1 : (strTrim c == "DELETE_ALL") = false := by
      simp only [codeRecognized, claimRecognized, Bool.or_eq_false_iff] at hrec
      exact hrec.1.1.1
    have hr2 : strStarts (strTrim c) "DELETE_SPECIFIC:" = false := by
      simp only [codeRecognized, claimRecognized, Bool.or_eq_false_iff] at hrec
      exact hrec.1.1.2
    have hr3 : strStarts (strTrim c) "DELETE_NONE:" = false := by
      simp only [codeRecognized, claimRecognized, Bool.or_eq_false_iff] at hrec
      exact hrec.1.2
    have hr4 : strStarts (strTrim c) "DELETE_ALL:" = false := by
      simp only [codeRecognized, claimRecognized, Bool.or_eq_false_iff] at hrec
      exact hrec.2
    refine ⟨?_, Or.inr ?_⟩ <;>
      simp [processMemoryDeletion, hlast, h0, h1, hfast, hr1, hr2, hr3, hr4]

/-- C1, witness: a completion of `"PURGE EVERYTHING"` leaves the store
untouched and refuses. -/
theorem c1_error_or_unrecognized_refuses_witness :
    (processMemoryDeletion 1 ["delete the test memory"]
        [⟨1, "note", "hello"⟩] (Except.ok "PURGE EVERYTHING")).db =
      [⟨1, "note", "hello"⟩] ∧
    ((∃ e, (processMemoryDeletion 1 ["delete the test memory"]
        [⟨1, "note", "hello"⟩] (Except.ok "PURGE EVERYTHING")).deleteResult =
        some ("Error processing deletion request: " ++ e)) ∨
      (processMemoryDeletion 1 ["delete the test memory"]
        [⟨1, "note", "hello"⟩] (Except.ok "PURGE EVERYTHING")).deleteResult =
        some ("I" ++ sq ++
          "m not sure how to handle this deletion request. Please be more specific.")) :=
  c1_error_or_unrecognized_refuses 1 ["delete the test memory"]
    [⟨1, "note", "hello"⟩] (Except.ok "PURGE EVERYTHING") "delete the test memory"
    rfl (by decide) ⟨⟨1, "note", "hello"⟩, by decide, by decide, by decide, by decide⟩
    (by decide) (Or.inr ⟨"PURGE EVERYTHING", rfl, by decide⟩)

/-! ## C2: deterministic explicit delete-all fast path -/

/-- C2.  For any message containing one of the explicit delete-all
phrasings, with existing memories, the deletion executes in the same
invocation — the completion-service oracle is never consulted (the
outcome is the same for every oracle value), every record of the user
is removed, and the count removed is reported. -/
theorem c2_explicit_delete_all_fast_path (uid : Nat) (msgs : List String)
    (db : List MemRecord) (llm : Except String String) (lastMsg : String)
    (hlast : msgs.getLast? = some lastMsg)
    (huid : uid ≠ 0)
    (hmem : ∃ r ∈ db, r.user = uid ∧ r.key ≠ "" ∧ r.value ≠ "")
    (hfast : deleteAllPatterns.any (fun p => strContains (strLower lastMsg) p) = true) :
    (processMemoryDeletion uid msgs db llm).llmInvoked = false ∧
    (processMemoryDeletion uid msgs db llm).db =
      db.filter (fun r => !(r.user == uid)) ∧
    (∀ r ∈ (processMemoryDeletion uid msgs db llm).db, r.user ≠ uid) ∧
    (processMemoryDeletion uid msgs db llm).deleteResult =
      some ("Successfully deleted " ++
        toString (db.countP (fun r => r.user == uid)) ++ " memories.") := by
  have h0 : (uid == 0) = false := by simpa using huid
  have h1 : (buildMemories uid db).isEmpty = false := by
    have := buildMemories_ne_nil uid db hmem
    cases h : buildMemories uid db with
    | nil => exact absurd h this
    | cons a l => rfl
  have hout : processMemoryDeletion uid msgs db llm = executeDeleteAll uid db false := by
    simp [processMemoryDeletion, hlast, h0, h1, hfast]
  refine ⟨by simp [hout, executeDeleteAll], by simp [hout, executeDeleteAll], ?_, by
    simp [hout, executeDeleteAll]⟩
  intro r hr
  rw [hout] at hr
  simp only [executeDeleteAll, List.mem_filter] at hr
  simpa using hr.2

/-- C2, witness: `"delete all memories"` with one record for user 1
deletes it and reports a count of 1 even when the completion service
would have failed. -/
theorem c2_explicit_delete_all_fast_path_witness :
    (processMemoryDeletion 1 ["delete all memories"]
        [⟨1, "note", "hello"⟩] (Except.error "service down")).llmInvoked = false ∧
    (processMemoryDeletion 1 ["delete all memories"]
        [⟨1, "note", "hello"⟩] (Except.error "service down")).db =
      List.filter (fun r => !(r.user == 1)) ([⟨1, "note", "hello"⟩] : List MemRecord) ∧
    (∀ r ∈ (processMemoryDeletion 1 ["delete all memories"]
        [⟨1, "note", "hello"⟩] (Except.error "service down")).db, r.user ≠ 1) ∧
    (processMemoryDeletion 1 ["delete all memories"]
        [⟨1, "note", "hello"⟩] (Except.error "service down")).deleteResult =
      some ("Successfully deleted " ++
        toString (List.countP (fun r => r.user == 1) ([⟨1, "note", "hello"⟩] : List MemRecord)) ++
        " memories.") :=
  c2_explicit_delete_all_fast_path 1 ["delete all memories"]
    [⟨1, "note", "hello"⟩] (Except.error "service down") "delete all memories"
    rfl (by decide) ⟨⟨1, "note", "hello"⟩, by decide, by decide, by decide, by decide⟩
    (by decide)

/-! ## C3: two-phase clear confirmation -/

/-- C3.  For an authenticated user, a `clear` whose argument is not the
confirmation token mutates no durable records and returns only the
confirmation prompt; a `clear confirm` removes every record of that
user and reports the exact prior count. -/
theorem c3_clear_two_phase (uid : Nat) (db : List MemRecord) (arg : Option String)
    (huid : uid ≠ 0) :
    (strLower (arg.getD "") ≠ "confirm" →
      commandClear uid arg db =
        (db, "You are requesting to clear ALL memories. Please confirm with " ++
          sq ++ "/clear confirm" ++ sq ++ " to proceed.", true)) ∧
    commandClear uid (some "confirm") db =
      (db.filter (fun r => !(r.user == uid)),
        "All memories cleared (" ++
          toString (db.countP (fun r => r.user == uid)) ++ " deleted).", false) ∧
    ∀ r ∈ (commandClear uid (some "confirm") db).1, r.user ≠ uid := by
  have h0 : (uid == 0) = false := by simpa using huid
  have hc : (strLower "confirm" == "confirm") = true := by decide
  have hcl : commandClear uid (some "confirm") db =
      (db.filter (fun r => !(r.user == uid)),
        "All memories cleared (" ++
          toString (db.countP (fun r => r.user == uid)) ++ " deleted).", false) := by
    simp [commandClear, hc, h0]
  refine ⟨?_, hcl, ?_⟩
  · intro hne
    have hb : (strLower (arg.getD "") == "confirm") = false := by
      simpa using hne
    simp [commandClear, hb]
  · intro r hr
    rw [hcl] at hr
    simp only [List.mem_filter] at hr
    simpa using hr.2

/-- C3, witness: with one record for user 1, `clear nope` only prompts
and leaves the store intact, `clear confirm` empties it and reports the
prior count. -/
theorem c3_clear_two_phase_witness :
    commandClear 1 (some "nope") ([⟨1, "a", "x"⟩] : List MemRecord) =
      ([⟨1, "a", "x"⟩], "You are requesting to clear ALL memories. Please confirm with " ++
        sq ++ "/clear confirm" ++ sq ++ " to proceed.", true) ∧
    commandClear 1 (some "confirm") ([⟨1, "a", "x"⟩] : List MemRecord) =
      (List.filter (fun r => !(r.user == 1)) ([⟨1, "a", "x"⟩] : List MemRecord),
        "All memories cleared (" ++
          toString (List.countP (fun r => r.user == 1) ([⟨1, "a", "x"⟩] : List MemRecord)) ++
          " deleted).", false) :=
  ⟨(c3_clear_two_phase 1 [⟨1, "a", "x"⟩] (some "nope") (by decide)).1 (by decide),
    (c3_clear_two_phase 1 [⟨1, "a", "x"⟩] (some "confirm") (by decide)).2.1⟩

/-! ## C4: delete-specific-key command -/

/-- C4.  For an authenticated user and a non-empty (already-stripped)
key occurring at most once for that user: with no argument the command
returns the usage message without touching the store; with the key
absent it reports not-found and leaves the store unchanged; with the
key present it deletes exactly that record (count 1) and reports
deleted; deleting the same key twice yields deleted then not-found. -/
theorem c4_delete_specific_key (uid : Nat) (db : List MemRecord) (k : String)
    (huid : uid ≠ 0) (hk : k ≠ "") (htrim : strTrim k = k)
    (huniq : (db.filter (fun r => r.user == uid && r.key == k)).length ≤ 1) :
    commandDelete uid none db =
      (db, "Please specify which memory to delete. Usage: /delete <memory_key>.", false) ∧
    ((∀ r ∈ db, ¬(r.user = uid ∧ r.key = k)) →
      commandDelete uid (some k) db =
        (db, "Memory " ++ sq ++ k ++ sq ++ " not found.", true)) ∧
    ((∃ r ∈ db, r.user = uid ∧ r.key = k) →
      (commandDelete uid (some k) db).2.1 = "Memory " ++ sq ++ k ++ sq ++ " deleted." ∧
      (commandDelete uid (some k) db).1 =
        db.filter (fun r => !(r.user == uid && r.key == k)) ∧
      db.countP (fun r => r.user == uid && r.key == k) = 1) ∧
    ((∃ r ∈ db, r.user = uid ∧ r.key = k) →
      (commandDelete uid (some k) ((commandDelete uid (some k) db).1)).2.1 =
        "Memory " ++ sq ++ k ++ sq ++ " not found.") := by
  have h0 : (uid == 0) = false := by simpa using huid
  have hkb : (k == "") = false := by simpa using hk
  refine ⟨by simp [commandDelete], ?_, ?_, ?_⟩
  · intro habs
    have hn : db.countP (fun r => r.user == uid && r.key == k) = 0 := by
      refine List.countP_eq_zero.mpr ?_
      intro r hr
      have := habs r hr
      simp only [Bool.and_eq_true, beq_iff_eq]
      tauto
    simp [commandDelete, hkb, h0, htrim, hn]
  · intro hex
    have hpos : 0 < db.countP (fun r => r.user == uid && r.key == k) := by
      refine List.countP_pos_iff.mpr ?_
      obtain ⟨r, hr, h1, h2⟩ := hex
      exact ⟨r, hr, by simp [h1, h2]⟩
    have h1 : db.countP (fun r => r.user == uid && r.key == k) = 1 := by
      have hle : db.countP (fun r => r.user == uid && r.key == k) ≤ 1 := by
        rw [List.countP_eq_length_filter]
        exact huniq
      omega
    refine ⟨?_, ?_, h1⟩ <;> simp [commandDelete, hkb, h0, htrim, h1]
  · intro hex
    have hpos : 0 < db.countP (fun r => r.user == uid && r.key == k) := by
      refine List.countP_pos_iff.mpr ?_
      obtain ⟨r, hr, h1, h2⟩ := hex
      exact ⟨r, hr, by simp [h1, h2]⟩
    have h1 : db.countP (fun r => r.user == uid && r.key == k) = 1 := by
      have hle : db.countP (fun r => r.user == uid && r.key == k) ≤ 1 := by
        rw [List.countP_eq_length_filter]
        exact huniq
      omega
    have hfst : (commandDelete uid (some k) db).1 =
        db.filter (fun r => !(r.user == uid && r.key == k)) := by
      simp [commandDelete, hkb, h0, htrim, h1]
    have hz : (db.filter (fun r => !(r.user == uid && r.key == k))).countP
        (fun r => r.user == uid && r.key == k) = 0 := by
      refine List.countP_eq_zero.mpr ?_
      intro r hr
      have := (List.mem_filter.mp hr).2
      simp only [Bool.not_eq_eq_eq_not, Bool.not_true] at this
      simp [this]
    rw [hfst]
    have hkb2 : ¬((k == "") = true) := by simp [hkb]
    have h02 : ¬((uid == 0) = true) := by simp [h0]
    simp only [commandDelete, Option.getD_some]
    rw [if_neg hkb2, if_neg h02, htrim, hz]
    simp

/-- C4, witness: on a one-record store, missing argument gives the
usage message; deleting key `a` twice gives deleted then not-found. -/
theorem c4_delete_specific_key_witness :
    commandDelete 1 none ([⟨1, "a", "x"⟩] : List MemRecord) =
      ([⟨1, "a", "x"⟩],
        "Please specify which memory to delete. Usage: /delete <memory_key>.", false) ∧
    (commandDelete 1 (some "a") ([⟨1, "a", "x"⟩] : List MemRecord)).2.1 =
      "Memory " ++ sq ++ "a" ++ sq ++ " deleted." ∧
    (commandDelete 1 (some "a")
        ((commandDelete 1 (some "a") ([⟨1, "a", "x"⟩] : List MemRecord)).1)).2.1 =
      "Memory " ++ sq ++ "a" ++ sq ++ " not found." :=
  ⟨(c4_delete_specific_key 1 [⟨1, "a", "x"⟩] "a" (by decide) (by decide) (by decide)
      (by decide)).1,
    ((c4_delete_specific_key 1 [⟨1, "a", "x"⟩] "a" (by decide) (by decide) (by decide)
      (by decide)).2.2.1 ⟨⟨1, "a", "x"⟩, by decide, rfl, rfl⟩).1,
    (c4_delete_specific_key 1 [⟨1, "a", "x"⟩] "a" (by decide) (by decide) (by decide)
      (by decide)).2.2.2 ⟨⟨1, "a", "x"⟩, by decide, rfl, rfl⟩⟩

/-! ## C5: store failure during session authentication -/

/-- C5.  With the durable store unreachable, the services-layer
authenticator (`SessionService.authenticate_or_create_session`) binds
the fixed default user id 1 and proceeds — but the agent pipeline's
`AxiomOSAgent._authenticate`, which is what `run`/`run_stream` invoke,
has no exception handler, so the same failure propagates and the
request fails instead of falling back. -/
theorem c5_auth_fallback_divergence :
    authenticateOrCreateSession (some "sess") "new-id" 0 3600
        (Except.error "Database not available") =
      ("sess", 1, Except.error "Database not available") ∧
    agentAuthenticate (some "sess") "new-id" 0 3600
        (Except.error "Database not available") =
      Except.error "Database not available" :=
  ⟨rfl, rfl⟩

/-! ## C6: store failure or decode failure during memory loading -/

/-- C6.  `MemoryService.load_long_term_memory` returns an empty mapping
when the store is unreachable and decodes values best-effort (a decode
failure falls back to the raw string) — but the agent pipeline's
`AxiomOSAgent._load_memory` has no exception handler, so a store
failure propagates and aborts the pipeline instead of yielding an
empty mapping. -/
theorem c6_memory_load_divergence :
    loadLongTermMemory (J := Nat)
        (fun s => if s == "42" then some (Sum.inr 42) else none) 1
        (Except.error "Database not available") = [] ∧
    loadLongTermMemory (J := Nat)
        (fun s => if s == "42" then some (Sum.inr 42) else none) 1
        (Except.ok [⟨1, "a", "42"⟩, ⟨1, "b", "raw"⟩]) =
      [("a", Sum.inr 42), ("b", Sum.inl "raw")] ∧
    agentLoadMemory 1 [] (Except.error "Database not available") =
      Except.error "Database not available" :=
  ⟨rfl, rfl, rfl⟩

/-! ## C7: command execution suppresses response generation and auto-save -/

/-- C7.  Executing any detected command sets both skip flags; with them
set, the response stage does not invoke the completion service and the
memory-save stage adds no durable record on that turn; and in general
the memory-save stage creates a new long-term record only when
`processing_remember` is set (and `processing_delete` and the skip flag
are not). -/
theorem c7_commands_suppress_and_save_gated
    (now saveVal now2 encVal : String) (blob : List (String × String))
    (preview previewShort : String → String → String)
    (llm : Except String String) (memoryInfo : String)
    (st : AgState) (c : String)
    (hc : st.ctx.command = some c) :
    (executeCommand now saveVal blob preview previewShort st).ctx.skipLlm = true ∧
    (executeCommand now saveVal blob preview previewShort st).ctx.skipSave = true ∧
    (respond llm memoryInfo
      (executeCommand now saveVal blob preview previewShort st)).2 = false ∧
    (saveMemory now2 encVal
        ((respond llm memoryInfo
          (executeCommand now saveVal blob preview previewShort st)).1)).db =
      ((respond llm memoryInfo
        (executeCommand now saveVal blob preview previewShort st)).1).db ∧
    (∀ st2 : AgState, (saveMemory now2 encVal st2).db ≠ st2.db →
      st2.ctx.processingRemember = true ∧ st2.ctx.processingDelete = false ∧
      st2.ctx.skipSave = false) := by
  have hLlm : (executeCommand now saveVal blob preview previewShort st).ctx.skipLlm =
      true := by
    simp [executeCommand, hc]
  have hSave : (executeCommand now saveVal blob preview previewShort st).ctx.skipSave =
      true := by
    simp [executeCommand, hc]
  have hResp : (respond llm memoryInfo
      (executeCommand now saveVal blob preview previewShort st)).2 = false := by
    cases hmsg : (executeCommand now saveVal blob preview previewShort st).messages.getLast? with
    | none => simp [respond, hmsg]
    | some m => simp [respond, hmsg, hLlm]
  have hSave2 : ((respond llm memoryInfo
      (executeCommand now saveVal blob preview previewShort st)).1).ctx.skipSave =
      true := by
    cases hmsg : (executeCommand now saveVal blob preview previewShort st).messages.getLast? with
    | none => simpa [respond, hmsg] using hSave
    | some m => simp [respond, hmsg, hLlm, hSave]
  refine ⟨hLlm, hSave, hResp, ?_, ?_⟩
  · simp [saveMemory, hSave2]
  · intro st2 hne
    by_cases h1 : (st2.ctx.processingDelete || st2.ctx.skipSave) = true
    · exact absurd (by simp [saveMemory, h1]) hne
    · have h1f : (st2.ctx.processingDelete || st2.ctx.skipSave) = false := by
        simpa using h1
      obtain ⟨hd, hs⟩ := Bool.or_eq_false_iff.mp h1f
      by_cases h2 : (st2.userId != 0 && st2.ctx.processingRemember) = true
      · refine ⟨?_, hd, hs⟩
        simp only [Bool.and_eq_true] at h2
        exact h2.2
      · exact absurd (by simp [saveMemory, h1, h2]) hne

/-- C7, witness: a `/help` turn has both skip flags set, does not call
the completion service, adds no durable record; and a turn whose state
does create a record has `processing_remember` set. -/
theorem c7_commands_suppress_and_save_gated_witness :
    (executeCommand "t" "v" [] (fun k v => k ++ v) (fun k v => k ++ v)
      { userId := 1, sessionId := "s", messages := ["/help"],
        ctx := { command := some "help" }, db := [] }).ctx.skipLlm = true ∧
    (executeCommand "t" "v" [] (fun k v => k ++ v) (fun k v => k ++ v)
      { userId := 1, sessionId := "s", messages := ["/help"],
        ctx := { command := some "help" }, db := [] }).ctx.skipSave = true ∧
    (respond (Except.ok "reply") ""
      (executeCommand "t" "v" [] (fun k v => k ++ v) (fun k v => k ++ v)
        { userId := 1, sessionId := "s", messages := ["/help"],
          ctx := { command := some "help" }, db := [] })).2 = false ∧
    ({ userId := 1, ctx := { processingRemember := true } } : AgState).ctx.processingRemember =
      true := by
  have h := c7_commands_suppress_and_save_gated "t" "v" "t2" "v2" []
    (fun k v => k ++ v) (fun k v => k ++ v) (Except.ok "reply") ""
    { userId := 1, sessionId := "s", messages := ["/help"],
      ctx := { command := some "help" }, db := [] } "help" rfl
  exact ⟨h.1, h.2.1, h.2.2.1,
    (h.2.2.2.2 { userId := 1, ctx := { processingRemember := true } }
      (by decide)).1⟩

/-! ## Lookup lemmas for the decoded-memory dict -/

/-- Looking up the key just inserted finds the inserted value. -/
lemma find_filterne_append {J : Type} (k : String) (v : String ⊕ J) :
    ∀ m : List (String × (String ⊕ J)),
      List.find? (fun p => p.1 == k)
        (List.filter (fun p => !(p.1 == k)) m ++ [(k, v)]) = some (k, v)
  | [] => by simp
  | p :: m => by
    by_cases hp : (p.1 == k) = true
    · simp [List.filter_cons, hp, find_filterne_append k v m]
    · simp [List.filter_cons, hp, List.find?_cons, find_filterne_append k v m]

/-- Looking up a different key is unaffected by an insertion. -/
lemma find_filterne_append_ne {J : Type} (k k' : String) (v : String ⊕ J)
    (hne : ¬(k = k')) :
    ∀ m : List (String × (String ⊕ J)),
      List.find? (fun p => p.1 == k)
        (List.filter (fun p => !(p.1 == k')) m ++ [(k', v)]) =
        List.find? (fun p => p.1 == k) m
  | [] => by
    have : (k' == k) = false := by
      simp
      intro h
      exact hne h.symm
    simp [this]
  | p :: m => by
    by_cases hp : (p.1 == k') = true
    · have hpk : (p.1 == k) = false := by
        have : p.1 = k' := by simpa using hp
        simp [this]
        intro h
        exact hne h.symm
      simpa [List.filter_cons, hp, List.find?_cons, hpk] using
        find_filterne_append_ne k k' v hne m
    · by_cases hpk : (p.1 == k) = true
      · simp [List.filter_cons, hp, List.find?_cons, hpk]
      · simpa [List.filter_cons, hp, List.find?_cons, hpk] using
          find_filterne_append_ne k k' v hne m

/-- `dictGetPV` of a fresh insertion. -/
lemma dictGetPV_insert_self {J : Type} (m : List (String × (String ⊕ J)))
    (k : String) (v : String ⊕ J) :
    dictGetPV (dictInsertPV m k v) k = some v := by
  simp [dictGetPV, dictInsertPV, find_filterne_append]

/-- `dictGetPV` after inserting a different key. -/
lemma dictGetPV_insert_ne {J : Type} (m : List (String × (String ⊕ J)))
    (k k' : String) (v : String ⊕ J) (hne : ¬(k = k')) :
    dictGetPV (dictInsertPV m k' v) k = dictGetPV m k := by
  simp [dictGetPV, dictInsertPV, find_filterne_append_ne k k' v hne]

/-- Lookup after the dict-building fold of
`MemoryService.load_long_term_memory`: the key binds to the decoding of
the last record carrying it, falling back to the accumulator. -/
lemma loadFold_lookup {J : Type} (loads : String → Option (String ⊕ J)) (k : String) :
    ∀ (rs : List MemRecord) (acc : List (String × (String ⊕ J))),
      dictGetPV
        (rs.foldl (fun m r => dictInsertPV m r.key (decodeValue loads r.value)) acc) k =
        (match (rs.filter (fun r => r.key == k)).getLast? with
          | some r => some (decodeValue loads r.value)
          | none => dictGetPV acc k)
  | [], acc => by simp
  | r :: rest, acc => by
    rw [List.foldl_cons, loadFold_lookup loads k rest _]
    by_cases hrk : (r.key == k) = true
    · rw [@List.filter_cons_of_pos _ (fun r => r.key == k) r rest hrk]
      cases hrest : rest.filter (fun r => r.key == k) with
      | nil =>
        have hrk2 : r.key = k := by simpa using hrk
        simp [hrk2, dictGetPV_insert_self]
      | cons a l =>
        rw [List.getLast?_cons_cons]
        cases hg : (a :: l).getLast? with
        | none => simp at hg
        | some x => rfl
    · rw [@List.filter_cons_of_neg _ (fun r => r.key == k) r rest hrk]
      cases hrest : (rest.filter (fun r => r.key == k)).getLast? with
      | none =>
        have hne : ¬(k = r.key) := by
          intro h
          subst h
          simp at hrk
        simp [hrest, dictGetPV_insert_ne _ _ _ _ hne]
      | some x => simp [hrest]

/-- After the update-in-place branch of `save_long_term_memory`, the
records matching `(uid, k)` are exactly the single updated one. -/
lemma updateFirst_filter_eq (uid : Nat) (k jv : String) :
    ∀ db : List MemRecord,
      (db.filter (fun r => r.user == uid && r.key == k)).length ≤ 1 →
      db.any (fun r => r.user == uid && r.key == k) = true →
      (updateFirstValue uid k jv db).filter (fun r => r.user == uid && r.key == k) =
        [⟨uid, k, jv⟩]
  | [], _, hany => by simp at hany
  | r :: rest, huniq, hany => by
    by_cases hr : (r.user == uid && r.key == k) = true
    · have hu : r.user = uid := by
        simp only [Bool.and_eq_true, beq_iff_eq] at hr
        exact hr.1
      have hkk : r.key = k := by
        simp only [Bool.and_eq_true, beq_iff_eq] at hr
        exact hr.2
      have hrest : rest.filter (fun r => r.user == uid && r.key == k) = [] := by
        rw [@List.filter_cons_of_pos _ (fun r => r.user == uid && r.key == k)
          r rest hr] at huniq
        simp only [List.length_cons] at huniq
        have : (rest.filter (fun r => r.user == uid && r.key == k)).length = 0 := by
          omega
        exact List.eq_nil_of_length_eq_zero this
      have hstep : updateFirstValue uid k jv (r :: rest) =
          ⟨r.user, r.key, jv⟩ :: rest := by
        simp only [updateFirstValue]
        rw [if_pos hr]
      have hpred : ((⟨r.user, r.key, jv⟩ : MemRecord).user == uid &&
          (⟨r.user, r.key, jv⟩ : MemRecord).key == k) = true := by
        simp [hu, hkk]
      rw [hstep, @List.filter_cons_of_pos _ (fun r => r.user == uid && r.key == k)
        ⟨r.user, r.key, jv⟩ rest hpred, hrest]
      simp [hu, hkk]
    · have hany2 : rest.any (fun r => r.user == uid && r.key == k) = true := by
        simp only [List.any_cons, Bool.or_eq_true] at hany
        rcases hany with h | h
        · exact absurd h hr
        · exact h
      have huniq2 : (rest.filter (fun r => r.user == uid && r.key == k)).length ≤ 1 := by
        rw [@List.filter_cons_of_neg _ (fun r => r.user == uid && r.key == k)
          r rest hr] at huniq
        exact huniq
      have hstep : updateFirstValue uid k jv (r :: rest) =
          r :: updateFirstValue uid k jv rest := by
        simp only [updateFirstValue]
        rw [if_neg hr]
      rw [hstep, @List.filter_cons_of_neg _ (fun r => r.user == uid && r.key == k)
        r (updateFirstValue uid k jv rest) hr]
      exact updateFirst_filter_eq uid k jv rest huniq2 hany2

/-! ## C9: save / recall round-trip -/

/-- Whichever upsert branch `save_long_term_memory` takes, loading the
user's memories afterwards binds `k` to the decoding of the stored
string. -/
lemma c9_core {J : Type} (loads : String → Option (String ⊕ J)) (uid : Nat)
    (k jv : String) (db : List MemRecord) (huid : uid ≠ 0)
    (huniq : (db.filter (fun r => r.user == uid && r.key == k)).length ≤ 1) :
    dictGetPV
      (loadLongTermMemory loads uid (Except.ok
        (if db.any (fun r => r.user == uid && r.key == k) then
          updateFirstValue uid k jv db
        else db ++ [⟨uid, k, jv⟩]))) k = some (decodeValue loads jv) := by
  have h0 : (uid == 0) = false := by simpa using huid
  have hload : ∀ db' : List MemRecord,
      loadLongTermMemory loads uid (Except.ok db') =
        (db'.filter (fun r => r.user == uid)).foldl
          (fun m r => dictInsertPV m r.key (decodeValue loads r.value)) [] := by
    intro db'
    simp [loadLongTermMemory, h0]
  by_cases hany : db.any (fun r => r.user == uid && r.key == k) = true
  · rw [if_pos hany, hload, loadFold_lookup, List.filter_filter]
    have hswap : (updateFirstValue uid k jv db).filter
        (fun r => r.key == k && r.user == uid) =
        (updateFirstValue uid k jv db).filter
          (fun r => r.user == uid && r.key == k) := by
      refine List.filter_congr ?_
      intro a _
      exact Bool.and_comm _ _
    rw [hswap, updateFirst_filter_eq uid k jv db huniq hany]
    rfl
  · have hanyf : db.any (fun r => r.user == uid && r.key == k) = false := by
      simpa using hany
    rw [if_neg hany, hload, loadFold_lookup, List.filter_filter]
    have hnil : db.filter (fun r => r.key == k && r.user == uid) = [] := by
      refine List.filter_eq_nil_iff.mpr ?_
      intro a ha
      have := List.any_eq_false.mp hanyf a ha
      simp only [Bool.and_eq_true, not_and] at this ⊢
      tauto
    rw [List.filter_append, hnil]
    simp

/-- C9.  Saving `(k, v)` through `MemoryService.save_long_term_memory`
and then loading the user's memories returns for `k` a value consistent
with `v`: equal to `v`, except that a string value which itself parses
as JSON comes back decoded (the encode-on-save / decode-on-load
allowance).  `loads`/`dumps` model the external `json` codec, assumed
to round-trip on non-string values. -/
theorem c9_save_recall_round_trip {J : Type} (dumps : J → String)
    (loads : String → Option (String ⊕ J)) (uid : Nat) (k : String)
    (v : String ⊕ J) (db : List MemRecord)
    (huid : uid ≠ 0) (hk : k ≠ "")
    (huniq : (db.filter (fun r => r.user == uid && r.key == k)).length ≤ 1)
    (hcodec : ∀ j : J, loads (dumps j) = some (Sum.inr j)) :
    (saveLongTermMemory dumps uid k v (Except.ok db)).1 = true ∧
    ∃ res,
      dictGetPV
        (loadLongTermMemory loads uid
          (saveLongTermMemory dumps uid k v (Except.ok db)).2) k = some res ∧
      (res = v ∨ ∃ s, v = Sum.inl s ∧ loads s = some res) := by
  have h0 : (uid == 0) = false := by simpa using huid
  have hkb : (k == "") = false := by simpa using hk
  have hguard : (uid == 0 || k == "") = false := by simp [h0, hkb]
  cases v with
  | inl s =>
    have hsave : saveLongTermMemory dumps uid k (Sum.inl s) (Except.ok db) =
        (true, Except.ok
          (if db.any (fun r => r.user == uid && r.key == k) then
            updateFirstValue uid k s db
          else db ++ [⟨uid, k, s⟩])) := by
      by_cases hany : db.any (fun r => r.user == uid && r.key == k) = true <;>
        simp [saveLongTermMemory, hguard, hany]
    rw [hsave]
    refine ⟨rfl, decodeValue loads s, ?_, ?_⟩
    · exact c9_core loads uid k s db huid huniq
    · unfold decodeValue
      cases hl : loads s with
      | none => exact Or.inl rfl
      | some w => exact Or.inr ⟨s, rfl, by rw [hl]⟩
  | inr j =>
    have hsave : saveLongTermMemory dumps uid k (Sum.inr j) (Except.ok db) =
        (true, Except.ok
          (if db.any (fun r => r.user == uid && r.key == k) then
            updateFirstValue uid k (dumps j) db
          else db ++ [⟨uid, k, dumps j⟩])) := by
      by_cases hany : db.any (fun r => r.user == uid && r.key == k) = true <;>
        simp [saveLongTermMemory, hguard, hany]
    rw [hsave]
    refine ⟨rfl, Sum.inr j, ?_, Or.inl rfl⟩
    have := c9_core loads uid k (dumps j) db huid huniq
    rw [this]
    unfold decodeValue
    rw [hcodec j]

/-- C9, witness: saving the non-string value `()` under key `k` with a
codec that round-trips it, then loading, returns that value. -/
theorem c9_save_recall_round_trip_witness :
    (saveLongTermMemory (J := Unit) (fun _ => "()") 1 "k" (Sum.inr ())
      (Except.ok [])).1 = true ∧
    ∃ res,
      dictGetPV
        (loadLongTermMemory (J := Unit)
          (fun s => if s == "()" then some (Sum.inr ()) else none) 1
          (saveLongTermMemory (J := Unit) (fun _ => "()") 1 "k" (Sum.inr ())
            (Except.ok [])).2) "k" = some res ∧
      (res = Sum.inr () ∨ ∃ s, (Sum.inr () : String ⊕ Unit) = Sum.inl s ∧
        (if s == "()" then some (Sum.inr ()) else none) = some res) :=
  c9_save_recall_round_trip (fun _ => "()")
    (fun s => if s == "()" then some (Sum.inr ()) else none) 1 "k" (Sum.inr ()) []
    (by decide) (by decide) (by decide) (fun j => by cases j; rfl)

/-! ## C8: shape of the streamed chunk sequence -/

/-- C8, counterexample.  On the command short-circuit path `run_stream`
emits a single `is_complete = true` chunk carrying the whole response
in its `token`; there are no `is_complete = false` chunks, so their
concatenation (the empty string) differs from `final_response`. -/
theorem c8_stream_shape_counterexample :
    runStreamChunks "s" (some "Command executed.") [] none none =
      [⟨"Command executed.", "s", true, some "Command executed."⟩] ∧
    streamClaimCheck (runStreamChunks "s" (some "Command executed.") [] none none) =
      false := by
  decide

/-- The claimed stream shape holds for a fragment list followed by the
accumulated terminating chunk. -/
lemma streamClaimCheck_ok (sid : String) (toks : List String) :
    streamClaimCheck
      ((toks.map (fun t => (⟨t, sid, false, none⟩ : StreamChunk))) ++
        [⟨"", sid, true, some (toks.foldl (fun a t => a ++ t) "")⟩]) = true := by
  unfold streamClaimCheck concatFalseTokens
  rw [List.getLast?_concat]
  simp only [List.dropLast_concat, List.filter_append, List.filter_map, List.foldl_map]
  have hcomp : ((fun (c : StreamChunk) => !c.isComplete) ∘
      (fun t => (⟨t, sid, false, none⟩ : StreamChunk))) = fun _ => true := by
    funext t
    simp [Function.comp]
  rw [hcomp]
  simp [List.filter_append, List.foldl_map]

/-- C8, amended.  On the streaming path with no command short-circuit,
no completion-service error and a non-raising save, the emitted
sequence is zero or more `is_complete = false` chunks followed by
exactly one `is_complete = true` chunk whose `final_response` equals
the concatenation of the false-chunk tokens; on the command
short-circuit path the stream is a single `is_complete = true` chunk
whose `token` and `final_response` both carry the command result. -/
theorem c8_stream_shape_amended (sid r : String) (events : List (Option String))
    (se sv : Option String) :
    runStreamChunks sid (some r) events se sv = [⟨r, sid, true, some r⟩] ∧
    streamClaimCheck (runStreamChunks sid none events none none) = true := by
  refine ⟨rfl, ?_⟩
  show streamClaimCheck
      (((events.filterMap id).map (fun t => (⟨t, sid, false, none⟩ : StreamChunk))) ++
        [⟨"", sid, true, some ((events.filterMap id).foldl (fun a t => a ++ t) "")⟩]) =
    true
  exact streamClaimCheck_ok sid (events.filterMap id)

/-! ## C10: session-store fallback mode is permanent -/

/-- In fallback mode one manager operation is exactly one step of the
pure in-process map semantics, with no connection attempt. -/
lemma stepOp_fallback {D : Type} (env : Nat → Bool) (st : RedisState D)
    (op : ROp D) (h : st.fallback = true) :
    stepOp env st op =
      ({ st with mem := (specStep st.mem op).1 }, (specStep st.mem op).2, false) := by
  cases op <;> (cases st; simp_all [stepOp, specStep])

/-- In fallback mode any operation sequence refines the pure
in-process map semantics: fallback stays on, zero connection attempts
are made, and state and results agree with `specRun`. -/
lemma runOps_fallback {D : Type} (env : Nat → Bool) :
    ∀ (ops : List (ROp D)) (st : RedisState D), st.fallback = true →
      (runOps env st ops).1.fallback = true ∧
      (runOps env st ops).2.2 = 0 ∧
      (runOps env st ops).1.mem = (specRun st.mem ops).1 ∧
      (runOps env st ops).2.1 = (specRun st.mem ops).2
  | [], st, h => by simp [runOps, specRun, h]
  | op :: ops, st, h => by
    have hstep := stepOp_fallback env st op h
    have hrec := runOps_fallback env ops { st with mem := (specStep st.mem op).1 }
      (by simpa using h)
    simp only [runOps, specRun, hstep]
    exact ⟨hrec.1, by simp [hrec.2.1], hrec.2.2.1, by simp [hrec.2.2.2]⟩

/-- C10.  Once the first connection attempt fails the manager is in
fallback mode; from fallback mode, every subsequent sequence of
get/set/delete/ping operations makes no connection attempt, keeps
fallback mode on, acts exactly as the pure in-process map (TTL ignored
on set, `ping` false), and every operation returns normally with the
map semantics' result. -/
theorem c10_redis_fallback_permanent {D : Type} (env : Nat → Bool)
    (st : RedisState D) (ops : List (ROp D))
    (sid : String) (d : D) (t1 t2 : Nat)
    (h : st.fallback = true) (hfirst : env 0 = false) :
    (stepOp env (initRedis D) (ROp.setData sid d t1)).1.fallback = true ∧
    stepOp env st (ROp.setData sid d t1) = stepOp env st (ROp.setData sid d t2) ∧
    (runOps env st ops).1.fallback = true ∧
    (runOps env st ops).2.2 = 0 ∧
    (runOps env st ops).1.mem = (specRun st.mem ops).1 ∧
    (runOps env st ops).2.1 = (specRun st.mem ops).2 ∧
    (stepOp env st ROp.ping).2.1 = RRes.pong false := by
  have hrun := runOps_fallback env ops st h
  refine ⟨?_, ?_, hrun.1, hrun.2.1, hrun.2.2.1, hrun.2.2.2, ?_⟩
  · simp [stepOp, ensureConnected, initRedis, hfirst]
  · simp [stepOp, h]
  · simp [stepOp, h]

/-- C10, witness: from a fallback state holding one session, a concrete
get/ping/set/delete sequence makes no connection attempt and follows
the in-process map semantics. -/
theorem c10_redis_fallback_permanent_witness :
    (stepOp (fun _ => false) (initRedis Nat)
      (ROp.setData "b" 7 60)).1.fallback = true ∧
    stepOp (fun _ => false)
        ({ fallback := true, mem := [("session:a", 5)] } : RedisState Nat)
        (ROp.setData "b" 7 60) =
      stepOp (fun _ => false)
        ({ fallback := true, mem := [("session:a", 5)] } : RedisState Nat)
        (ROp.setData "b" 7 99) ∧
    (runOps (fun _ => false)
      ({ fallback := true, mem := [("session:a", 5)] } : RedisState Nat)
      [ROp.getData "a", ROp.ping, ROp.setData "b" 7 60,
        ROp.delData "a"]).1.fallback = true ∧
    (runOps (fun _ => false)
      ({ fallback := true, mem := [("session:a", 5)] } : RedisState Nat)
      [ROp.getData "a", ROp.ping, ROp.setData "b" 7 60,
        ROp.delData "a"]).2.2 = 0 ∧
    (runOps (fun _ => false)
      ({ fallback := true, mem := [("session:a", 5)] } : RedisState Nat)
      [ROp.getData "a", ROp.ping, ROp.setData "b" 7 60,
        ROp.delData "a"]).1.mem =
      (specRun [("session:a", 5)]
        [ROp.getData "a", ROp.ping, ROp.setData "b" 7 60, ROp.delData "a"]).1 ∧
    (runOps (fun _ => false)
      ({ fallback := true, mem := [("session:a", 5)] } : RedisState Nat)
      [ROp.getData "a", ROp.ping, ROp.setData "b" 7 60,
        ROp.delData "a"]).2.1 =
      (specRun [("session:a", 5)]
        [ROp.getData "a", ROp.ping, ROp.setData "b" 7 60, ROp.delData "a"]).2 ∧
    (stepOp (fun _ => false)
      ({ fallback := true, mem := [("session:a", 5)] } : RedisState Nat)
      ROp.ping).2.1 = RRes.pong false :=
  c10_redis_fallback_permanent (fun _ => false)
    { fallback := true, mem := [("session:a", 5)] }
    [ROp.getData "a", ROp.ping, ROp.setData "b" 7 60, ROp.delData "a"]
    "b" 7 60 99 rfl rfl

end AxiomOS
